import Mathlib

/-!
Verification of the rustchat server core against its specification.

The definitions below are a shallow embedding of the Rust sources:

* `rustchat-types/src/message.rs` — the `Message` value and its variants;
* `rustchat-server/src/main.rs` — the websocket event type, the client
  frame handlers (`handle_client_message`), the heartbeat task and the
  live-clients map;
* `rustchat-server/src/room/mod.rs`, `room/manager.rs`,
  `room/broadcast.rs` — rooms, the room registry and the per-room
  broadcast broker;
* `rustchat-server/src/auth/mod.rs`, `auth/service.rs` — the auth
  service (JWT verification, e-mail verification codes);
* `rustchat-core/src/database.rs` — the message store.

128-bit random identifiers (UUIDs) are modelled as natural numbers;
freshness of a newly minted identifier is modelled with a counter.
Wall-clock instants and JWT timestamps are modelled as integers or
naturals counting seconds.  Side effects (database writes, channel
publishes, mailbox sends, log lines) are reified as an `Effect` list so
that control-flow claims about them can be stated.
-/

deriving instance DecidableEq for Except

namespace RustChat

/-- Association-list lookup keyed by `Nat`; the model of `HashMap::get`. -/
def lookupA {β : Type} : List (Nat × β) → Nat → Option β
  | [], _ => none
  | (k, v) :: rest, key => if k = key then some v else lookupA rest key

/-- Message content variants, from `MessageType` in `rustchat-types/src/message.rs`. -/
inductive MessageType
  | text (s : String)
  | system (s : String)
  | nickChange (oldNick newNick : String)
  deriving DecidableEq, Repr

/-- The `Message` struct of `rustchat-types/src/message.rs`.  `additionalData`
models the single `"room_id"` key the server ever stores in the JSON
`additional_data` field (`main.rs` `SendRoomMessage` handler). -/
structure Message where
  id : Nat
  fromUser : Nat
  content : MessageType
  timestamp : Nat
  fromNick : Option String
  roomId : Option Nat
  additionalData : Option Nat
  deriving DecidableEq, Repr

/-- `Message::new_text`.  The fresh UUID and `Utc::now()` are made explicit
parameters `id`, `ts`. -/
def Message.newText (fromUser : Nat) (text : String) (fromNick : Option String)
    (id ts : Nat) : Message :=
  { id := id, fromUser := fromUser, content := MessageType.text text,
    timestamp := ts, fromNick := fromNick, roomId := none, additionalData := none }

/-- The server-to-client event type `WsEvent` of `main.rs`. -/
inductive WsEvent
  | connected (userId : Nat)
  | message (m : Message)
  | userJoined (userId : Nat) (nickname : Option String)
  | userLeft (userId : Nat)
  | roomMessage (roomId : Nat) (m : Message)
  | userJoinedRoom (roomId userId : Nat)
  | userLeftRoom (roomId userId : Nat)
  | ping
  | pong
  | errorMsg (msg : String)
  deriving DecidableEq, Repr

/-- Reified side effects of the handlers in `main.rs`. -/
inductive Effect
  | save (m : Message)
  | logSaveError
  | logRouteError
  | broadcastGlobal (e : WsEvent)
  | publishRoom (roomId : Nat) (e : WsEvent)
  | sendMailbox (userId : Nat) (e : WsEvent)
  | botHandle (m : Message)
  deriving DecidableEq, Repr

/-- Outcome of `MessageDatabase::save_message`, as seen by its callers. -/
inductive DbResult
  | ok
  | storageError
  deriving DecidableEq, Repr

/-- The `ClientMessage::SendMessage` arm of `handle_client_message`
(`main.rs` lines 349-371): build the text message, save it (logging a
storage error), broadcast it globally, hand it to the bot manager.
The outcome of the database write is the explicit parameter `saveResult`. -/
def handleSendMessage (userId : Nat) (content : String) (nickname : Option String)
    (msgId ts : Nat) (saveResult : DbResult) : List Effect :=
  let message := Message.newText userId content nickname msgId ts
  [Effect.save message]
    ++ (match saveResult with
        | DbResult.storageError => [Effect.logSaveError]
        | DbResult.ok => [])
    ++ [Effect.broadcastGlobal (WsEvent.message message)]
    ++ [Effect.botHandle message]

/-- The global-channel events among a list of effects. -/
def broadcastsOf (effs : List Effect) : List WsEvent :=
  effs.filterMap fun e =>
    match e with
    | Effect.broadcastGlobal ev => some ev
    | _ => none

/-- Claim C2 (confirmed): for every SendMessage frame the built text message
is broadcast on the global channel regardless of whether persisting it
failed, the broadcast event is identical in both cases, and a storage
error is logged. -/
theorem sendMessage_broadcast_despite_storage_error
    (userId : Nat) (content : String) (nickname : Option String)
    (msgId ts : Nat) (r₁ r₂ : DbResult) :
    broadcastsOf (handleSendMessage userId content nickname msgId ts r₁)
      = [WsEvent.message (Message.newText userId content nickname msgId ts)]
    ∧ broadcastsOf (handleSendMessage userId content nickname msgId ts r₁)
      = broadcastsOf (handleSendMessage userId content nickname msgId ts r₂)
    ∧ Effect.logSaveError
        ∈ handleSendMessage userId content nickname msgId ts DbResult.storageError := by
  refine ⟨?_, ?_, ?_⟩
  · cases r₁ <;> simp [handleSendMessage, broadcastsOf]
  · cases r₁ <;> cases r₂ <;> simp [handleSendMessage, broadcastsOf]
  · simp [handleSendMessage]

/-! ## Heartbeat task (`heartbeat_task`, `main.rs` lines 617-669) -/

/-- Heartbeat interval in seconds (`Duration::from_secs(30)`). -/
def heartbeatIntervalSecs : Nat := 30

/-- Heartbeat timeout in seconds (`Duration::from_secs(90)`). -/
def heartbeatTimeoutSecs : Nat := 90

/-- One iteration of `heartbeat_task` for session `uid` at instant `now`.
The live-clients map is modelled as an association list of
`user_id ↦ last_pong` instants.  Mirrors the source order: if the client
is absent the task stops; if `last_pong.elapsed() > 90 s` the client is
removed via `remove_client` (which broadcasts `UserLeft`); otherwise a
`Ping` is sent to the session's mailbox. -/
def heartbeatTick (clients : List (Nat × Nat)) (uid : Nat) (now : Nat) :
    List (Nat × Nat) × List Effect :=
  match lookupA clients uid with
  | none => (clients, [])
  | some lastPong =>
    if now - lastPong > heartbeatTimeoutSecs then
      (clients.filter fun p => p.1 ≠ uid,
       [Effect.broadcastGlobal (WsEvent.userLeft uid)])
    else
      (clients, [Effect.sendMailbox uid WsEvent.ping])

/-- Claim C9 (corrected, counterexample): a registered session whose last
pong is more than 90 seconds old is evicted by the tick and receives no
`Ping` that tick — the tick checks the timeout before pinging, so the
claim that a `Ping` is sent on each tick for a registered session fails
exactly on the evicting tick. -/
theorem heartbeatTick_no_ping_on_evicting_tick :
    (heartbeatTick [(7, 0)] 7 100).2 = [Effect.broadcastGlobal (WsEvent.userLeft 7)]
    ∧ Effect.sendMailbox 7 WsEvent.ping ∉ (heartbeatTick [(7, 0)] 7 100).2 := by
  constructor
  · rfl
  · decide

/-- Removing every entry with a key from an association list makes a
lookup of that key fail. -/
theorem lookupA_filter_ne {β : Type} (l : List (Nat × β)) (uid : Nat) :
    lookupA (l.filter fun p => p.1 ≠ uid) uid = none := by
  induction l with
  | nil => rfl
  | cons p rest ih =>
    by_cases hp : p.1 = uid
    · simpa [List.filter_cons, hp] using ih
    · simpa [List.filter_cons, hp, lookupA] using ih

/-- Claim C9 (amended): on a tick for a registered session, if the elapsed
time since the last pong exceeds 90 seconds the session is removed from
the live-clients map and `UserLeft` is broadcast (and no `Ping` is sent
that tick); otherwise the session survives unchanged and a `Ping` is
enqueued to its mailbox.  Consequently a session still registered after a
completed tick has `last_pong` within 90 seconds. -/
theorem heartbeatTick_eviction_and_liveness
    (clients : List (Nat × Nat)) (uid now lastPong : Nat)
    (hreg : lookupA clients uid = some lastPong) :
    (now - lastPong > heartbeatTimeoutSecs →
        lookupA (heartbeatTick clients uid now).1 uid = none
        ∧ (heartbeatTick clients uid now).2
            = [Effect.broadcastGlobal (WsEvent.userLeft uid)])
    ∧ (now - lastPong ≤ heartbeatTimeoutSecs →
        (heartbeatTick clients uid now).1 = clients
        ∧ Effect.sendMailbox uid WsEvent.ping ∈ (heartbeatTick clients uid now).2)
    ∧ (∀ lp, lookupA (heartbeatTick clients uid now).1 uid = some lp →
        now - lp ≤ heartbeatTimeoutSecs) := by
  by_cases hgt : now - lastPong > heartbeatTimeoutSecs
  · have hev : heartbeatTick clients uid now
        = (clients.filter fun p => p.1 ≠ uid,
           [Effect.broadcastGlobal (WsEvent.userLeft uid)]) := by
      simp only [heartbeatTick, hreg]
      rw [if_pos hgt]
    refine ⟨fun _ => ⟨?_, ?_⟩, fun hle => absurd hgt (by omega), fun lp hlp => ?_⟩
    · rw [hev]
      exact lookupA_filter_ne clients uid
    · rw [hev]
    · rw [hev] at hlp
      rw [lookupA_filter_ne clients uid] at hlp
      exact Option.noConfusion hlp
  · have hsv : heartbeatTick clients uid now
        = (clients, [Effect.sendMailbox uid WsEvent.ping]) := by
      simp only [heartbeatTick, hreg]
      rw [if_neg hgt]
    refine ⟨fun hc => absurd hc hgt, fun _ => ⟨?_, ?_⟩, fun lp hlp => ?_⟩
    · rw [hsv]
    · rw [hsv]
      exact List.mem_singleton.mpr rfl
    · rw [hsv] at hlp
      rw [hreg] at hlp
      injection hlp with h
      omega

/-- Witness for `heartbeatTick_eviction_and_liveness` at a concrete
registered session. -/
theorem heartbeatTick_eviction_and_liveness_witness :
    (100 - 0 > heartbeatTimeoutSecs →
        lookupA (heartbeatTick [(7, 0)] 7 100).1 7 = none
        ∧ (heartbeatTick [(7, 0)] 7 100).2
            = [Effect.broadcastGlobal (WsEvent.userLeft 7)])
    ∧ (100 - 0 ≤ heartbeatTimeoutSecs →
        (heartbeatTick [(7, 0)] 7 100).1 = [(7, 0)]
        ∧ Effect.sendMailbox 7 WsEvent.ping ∈ (heartbeatTick [(7, 0)] 7 100).2)
    ∧ (∀ lp, lookupA (heartbeatTick [(7, 0)] 7 100).1 7 = some lp →
        100 - lp ≤ heartbeatTimeoutSecs) :=
  heartbeatTick_eviction_and_liveness [(7, 0)] 7 100 0 (by decide)

/-! ## Token verification (`AuthService::verify_token`, `auth/service.rs`
lines 473-494) -/

/-- `TokenType` of `auth/mod.rs`. -/
inductive TokenType
  | access
  | refresh
  deriving DecidableEq, Repr

/-- The `Display` rendering of `TokenType`. -/
def TokenType.toStr : TokenType → String
  | TokenType.access => "access"
  | TokenType.refresh => "refresh"

/-- `JwtClaims` of `auth/mod.rs`.  `iat`/`exp` are Unix-second timestamps. -/
structure JwtClaims where
  sub : String
  email : String
  displayName : Option String
  iat : Int
  exp : Int
  tokenType : String
  deriving DecidableEq, Repr

/-- A JWT as seen by the decoder: its claim set plus whether its HS256
signature verifies under the configured secret (the cryptography is
abstracted into the boolean). -/
structure Jwt where
  claims : JwtClaims
  sigValid : Bool
  deriving DecidableEq, Repr

/-- The error enum `AuthError` of `auth/mod.rs` (the arms the claims
mention; `databaseError` carries the wrapped `anyhow` message). -/
inductive AuthError
  | invalidEmail
  | invalidPassword
  | emailAlreadyExists
  | accountNotFound
  | invalidCredentials
  | invalidVerificationCode
  | accountNotVerified
  | accountSuspended
  | accountDeleted
  | verificationSendFailed
  | tokenExpired
  | invalidToken
  | databaseError (msg : String)
  | passwordHashError (msg : String)
  deriving DecidableEq, Repr

/-- Default `exp` leeway of `jsonwebtoken::Validation::new` (60 seconds). -/
def jwtValidationLeeway : Int := 60

/-- `jsonwebtoken::decode` under `Validation::new(Algorithm::HS256)`:
rejects a bad signature, and (because `validate_exp` defaults to on)
rejects a token whose `exp` lies more than the 60-second leeway in the
past.  The error string stands for the `ErrorKind`. -/
def jwtDecode (token : Jwt) (now : Int) : Except String JwtClaims :=
  if token.sigValid = false then Except.error "InvalidSignature"
  else if token.claims.exp < now - jwtValidationLeeway then Except.error "ExpiredSignature"
  else Except.ok token.claims

/-- `AuthService::verify_token`: decode (signature + library expiry check),
then require the claim's `token_type` to equal the expected type, then
re-check expiry against `now`.  Every failure is wrapped as
`AuthError::DatabaseError(anyhow!(...))` — the `TokenExpired` /
`InvalidToken` arms of `AuthError` are never produced here. -/
def verifyToken (token : Jwt) (expectedType : TokenType) (now : Int) :
    Except AuthError JwtClaims :=
  match jwtDecode token now with
  | Except.error e => Except.error (AuthError.databaseError ("JWT decoding error: " ++ e))
  | Except.ok claims =>
    if claims.tokenType ≠ expectedType.toStr then
      Except.error (AuthError.databaseError "Invalid token type")
    else if claims.exp < now then
      Except.error (AuthError.databaseError "Token expired")
    else
      Except.ok claims

/-- A well-signed access token that expired 200 s ago. -/
def staleAccessToken : Jwt :=
  { claims := { sub := "u1", email := "a@b.c", displayName := none,
                iat := 0, exp := 800, tokenType := "access" },
    sigValid := true }

/-- A well-signed access token that expired 50 s ago (inside the decoder
leeway, so the handler's own expiry check fires). -/
def recentlyExpiredAccessToken : Jwt :=
  { claims := { sub := "u1", email := "a@b.c", displayName := none,
                iat := 0, exp := 950, tokenType := "access" },
    sigValid := true }

/-- A well-signed, unexpired refresh token. -/
def freshRefreshToken : Jwt :=
  { claims := { sub := "u1", email := "a@b.c", displayName := none,
                iat := 0, exp := 5000, tokenType := "refresh" },
    sigValid := true }

/-- Claim C4 (code bug): `verify_token` does check the signature, the
expiry and the token type, but it does not distinguish its failures with
the `TokenExpired` / `InvalidToken` arms: every failure — an expired
token, a wrong-type token, a badly signed token — comes back as
`AuthError::DatabaseError(..)` with only the message differing, so the
`Err(AuthError::TokenExpired)` match arm in `auth/middleware.rs` line 85
is unreachable.  Evaluated here at `now = 1000` on concrete tokens. -/
theorem verifyToken_failures_are_all_databaseError :
    verifyToken staleAccessToken TokenType.access 1000
      = Except.error (AuthError.databaseError "JWT decoding error: ExpiredSignature")
    ∧ verifyToken recentlyExpiredAccessToken TokenType.access 1000
      = Except.error (AuthError.databaseError "Token expired")
    ∧ verifyToken freshRefreshToken TokenType.access 1000
      = Except.error (AuthError.databaseError "Invalid token type")
    ∧ verifyToken staleAccessToken TokenType.access 1000
      ≠ Except.error AuthError.tokenExpired
    ∧ verifyToken recentlyExpiredAccessToken TokenType.access 1000
      ≠ Except.error AuthError.tokenExpired
    ∧ verifyToken freshRefreshToken TokenType.access 1000
      ≠ Except.error AuthError.invalidToken
    ∧ verifyToken freshRefreshToken TokenType.refresh 1000
      = Except.ok freshRefreshToken.claims := by
  refine ⟨rfl, rfl, rfl, ?_, ?_, ?_, rfl⟩ <;> decide

/-- For every token and expected type, a failing `verify_token` never
yields the `TokenExpired` or `InvalidToken` arm: all of its errors are
`DatabaseError`. -/
theorem verifyToken_never_tokenExpired (token : Jwt) (expectedType : TokenType) (now : Int) :
    verifyToken token expectedType now ≠ Except.error AuthError.tokenExpired
    ∧ verifyToken token expectedType now ≠ Except.error AuthError.invalidToken := by
  unfold verifyToken
  cases jwtDecode token now with
  | error e => simp
  | ok claims =>
    by_cases ht : claims.tokenType = expectedType.toStr
    · by_cases he : claims.exp < now
      · simp [ht, he]
      · simp [ht, he]
    · simp [ht]

/-! ## E-mail verification codes (`auth/service.rs` lines 166-264 and
391-404) -/

/-- `VerificationPurpose` of `auth/mod.rs`. -/
inductive VerificationPurpose
  | emailVerification
  | passwordReset
  | loginVerification
  deriving DecidableEq, Repr

/-- A row of the `email_verifications` table (primary key
`(email, code, purpose)`); timestamps are Unix seconds. -/
structure EmailVerification where
  email : String
  code : String
  purpose : VerificationPurpose
  expiresAt : Int
  createdAt : Int
  used : Bool
  deriving DecidableEq, Repr

/-- The slice of an `accounts` row that e-mail verification touches. -/
structure Account where
  id : Nat
  email : String
  emailVerified : Bool
  deriving DecidableEq, Repr

/-- The auth store state: the `email_verifications` and `accounts` tables. -/
structure AuthDb where
  verifications : List EmailVerification
  accounts : List Account
  deriving DecidableEq, Repr

/-- The rows matching `WHERE email = ? AND code = ? AND purpose = ?`. -/
def matchingRows (db : AuthDb) (email code : String) (purpose : VerificationPurpose) :
    List EmailVerification :=
  db.verifications.filter fun r =>
    decide (r.email = email ∧ r.code = code ∧ r.purpose = purpose)

/-- `ORDER BY created_at DESC LIMIT 1` over a row list: the row with the
greatest `created_at` (the first such row on ties; the primary key makes
more than one match impossible in practice). -/
def mostRecent (rows : List EmailVerification) : Option EmailVerification :=
  rows.foldl
    (fun acc r =>
      match acc with
      | none => some r
      | some a => if r.createdAt > a.createdAt then some r else some a)
    none

/-- `AuthService::verify_email_code` (`auth/service.rs` lines 209-264):
select the most recent row matching `(email, code, purpose)`; reject if
absent, already used, or `Utc::now() > expires_at` (note: strict, so a
row whose `expires_at` equals `now` is accepted); on success set
`used = TRUE` on the matching rows and, when the purpose is
`EmailVerification`, set `email_verified = TRUE` on accounts with that
e-mail. -/
def verifyEmailCode (db : AuthDb) (email code : String) (purpose : VerificationPurpose)
    (now : Int) : Except AuthError AuthDb :=
  match mostRecent (matchingRows db email code purpose) with
  | none => Except.error AuthError.invalidVerificationCode
  | some row =>
    if row.used then Except.error AuthError.invalidVerificationCode
    else if now > row.expiresAt then Except.error AuthError.invalidVerificationCode
    else
      Except.ok
        { verifications :=
            db.verifications.map fun r =>
              if r.email = email ∧ r.code = code ∧ r.purpose = purpose then
                { r with used := true }
              else r,
          accounts :=
            if purpose = VerificationPurpose.emailVerification then
              db.accounts.map fun a =>
                if a.email = email then { a with emailVerified := true } else a
            else db.accounts }

/-- The acceptance condition `verify_email_code` actually implements:
the most recent matching row exists, is unused, and `now ≤ expires_at`. -/
def codeAccepted (db : AuthDb) (email code : String) (purpose : VerificationPurpose)
    (now : Int) : Bool :=
  match mostRecent (matchingRows db email code purpose) with
  | none => false
  | some row => !row.used && decide (now ≤ row.expiresAt)

/-- A store holding one unused EmailVerification code for `a@b.c` that
expires exactly at instant 100, and the matching unverified account. -/
def dbAtExpiryInstant : AuthDb :=
  { verifications :=
      [{ email := "a@b.c", code := "123456", purpose := VerificationPurpose.emailVerification,
         expiresAt := 100, createdAt := 0, used := false }],
    accounts := [{ id := 1, email := "a@b.c", emailVerified := false }] }

/-- Claim C5 (corrected, counterexample): at `now = 100` the stored code
whose `expires_at` is exactly 100 is accepted by `verify_email_code`
(the source rejects only when `now > expires_at`), contradicting the
claim that a code whose `expires_at` equals the current instant is
invalid (`now < expires_at`). -/
theorem verifyEmailCode_accepts_at_expiry_instant :
    (verifyEmailCode dbAtExpiryInstant "a@b.c" "123456"
        VerificationPurpose.emailVerification 100).isOk = true
    ∧ mostRecent (matchingRows dbAtExpiryInstant "a@b.c" "123456"
        VerificationPurpose.emailVerification)
      = some { email := "a@b.c", code := "123456",
               purpose := VerificationPurpose.emailVerification,
               expiresAt := 100, createdAt := 0, used := false }
    ∧ ¬ ((100 : Int) < 100) := by
  refine ⟨?_, ?_, ?_⟩ <;> decide

/-- Claim C5 (amended): `verify_email_code` succeeds iff the most recent
stored row matching `(email, code, purpose)` exists with `used = false`
and `now ≤ expires_at` (a code whose `expires_at` equals the current
instant is still accepted); on success every matching row is marked used
and, when the purpose is EmailVerification, every account with that
e-mail gets `email_verified = true`. -/
theorem verifyEmailCode_accepts_iff_and_postconditions
    (db : AuthDb) (email code : String) (purpose : VerificationPurpose) (now : Int) :
    ((verifyEmailCode db email code purpose now).isOk
      = codeAccepted db email code purpose now)
    ∧ (∀ db', verifyEmailCode db email code purpose now = Except.ok db' →
        (∀ r ∈ db'.verifications,
          r.email = email → r.code = code → r.purpose = purpose → r.used = true)
        ∧ (purpose = VerificationPurpose.emailVerification →
            ∀ a ∈ db'.accounts, a.email = email → a.emailVerified = true)) := by
  constructor
  · cases hmr : mostRecent (matchingRows db email code purpose) with
    | none => simp [verifyEmailCode, codeAccepted, hmr, Except.isOk, Except.toBool]
    | some row =>
      by_cases hu : row.used
      · simp [verifyEmailCode, codeAccepted, hmr, hu, Except.isOk, Except.toBool]
      · by_cases he : now > row.expiresAt
        · simp [verifyEmailCode, codeAccepted, hmr, hu, he, Except.isOk, Except.toBool]
          try omega
        · simp [verifyEmailCode, codeAccepted, hmr, hu, he, Except.isOk, Except.toBool]
          try omega
  · intro db' hok
    unfold verifyEmailCode at hok
    cases hmr : mostRecent (matchingRows db email code purpose) with
    | none =>
      simp only [hmr] at hok
      exact Except.noConfusion hok
    | some row =>
      simp only [hmr] at hok
      by_cases hu : row.used
      · rw [if_pos hu] at hok
        exact Except.noConfusion hok
      · rw [if_neg hu] at hok
        by_cases he : now > row.expiresAt
        · rw [if_pos he] at hok
          exact Except.noConfusion hok
        · rw [if_neg he] at hok
          injection hok with hdb
          subst hdb
          constructor
          · intro r hr hre hrc hrp
            simp only [List.mem_map] at hr
            obtain ⟨r₀, hr₀, hmap⟩ := hr
            by_cases hm : r₀.email = email ∧ r₀.code = code ∧ r₀.purpose = purpose
            · rw [if_pos hm] at hmap
              rw [← hmap]
            · rw [if_neg hm] at hmap
              subst hmap
              exact absurd ⟨hre, hrc, hrp⟩ hm
          · intro hp a ha hae
            rw [if_pos hp] at ha
            simp only [List.mem_map] at ha
            obtain ⟨a₀, ha₀, hmap⟩ := ha
            by_cases hm : a₀.email = email
            · rw [if_pos hm] at hmap
              rw [← hmap]
            · rw [if_neg hm] at hmap
              subst hmap
              exact absurd hae hm

/-- Witness for `verifyEmailCode_accepts_iff_and_postconditions` at the
concrete store `dbAtExpiryInstant`. -/
theorem verifyEmailCode_accepts_iff_and_postconditions_witness :
    ((verifyEmailCode dbAtExpiryInstant "a@b.c" "123456"
        VerificationPurpose.emailVerification 50).isOk
      = codeAccepted dbAtExpiryInstant "a@b.c" "123456"
          VerificationPurpose.emailVerification 50)
    ∧ (∀ db', verifyEmailCode dbAtExpiryInstant "a@b.c" "123456"
          VerificationPurpose.emailVerification 50 = Except.ok db' →
        (∀ r ∈ db'.verifications,
          r.email = "a@b.c" → r.code = "123456" →
          r.purpose = VerificationPurpose.emailVerification → r.used = true)
        ∧ (VerificationPurpose.emailVerification = VerificationPurpose.emailVerification →
            ∀ a ∈ db'.accounts, a.email = "a@b.c" → a.emailVerified = true)) :=
  verifyEmailCode_accepts_iff_and_postconditions dbAtExpiryInstant "a@b.c" "123456"
    VerificationPurpose.emailVerification 50

/-- `AuthService::cleanup_old_verification_codes` (`auth/service.rs` lines
391-404): `DELETE FROM email_verifications WHERE email = ? AND purpose = ?
AND (expires_at < ? OR used = TRUE)` — only expired or already-used rows
for the pair are deleted. -/
def cleanupOldVerificationCodes (rows : List EmailVerification) (email : String)
    (purpose : VerificationPurpose) (now : Int) : List EmailVerification :=
  rows.filter fun r =>
    decide ¬(r.email = email ∧ r.purpose = purpose ∧ (r.expiresAt < now ∨ r.used = true))

/-- The row `send_verification_code` inserts: the fresh code with a
10-minute (600 s) TTL, unused. -/
def newVerificationRow (email code : String) (purpose : VerificationPurpose)
    (now : Int) : EmailVerification :=
  { email := email, code := code, purpose := purpose,
    expiresAt := now + 600, createdAt := now, used := false }

/-- `AuthService::send_verification_code` (`auth/service.rs` lines
166-206), restricted to the `email_verifications` table: clean up old
codes for `(email, purpose)`, then insert the freshly generated code
(the random 6-digit code is the explicit parameter `code`). -/
def sendVerificationCode (rows : List EmailVerification) (email code : String)
    (purpose : VerificationPurpose) (now : Int) : List EmailVerification :=
  cleanupOldVerificationCodes rows email purpose now
    ++ [newVerificationRow email code purpose now]

/-- Number of stored rows for an `(email, purpose)` pair. -/
def rowsForPair (rows : List EmailVerification) (email : String)
    (purpose : VerificationPurpose) : Nat :=
  (rows.filter fun r => decide (r.email = email ∧ r.purpose = purpose)).length

/-- A store holding one still-pending (unused, unexpired at instant 10)
EmailVerification code for `a@b.c`. -/
def pendingCodeRows : List EmailVerification :=
  [{ email := "a@b.c", code := "111111", purpose := VerificationPurpose.emailVerification,
     expiresAt := 1000, createdAt := 0, used := false }]

/-- Claim C8 (corrected, counterexample): sending a new EmailVerification
code for `a@b.c` at instant 10 while an unused, unexpired code is still
stored leaves TWO rows for the `(email, EmailVerification)` pair — the
cleanup deletes only expired or used rows, so the claim that exactly one
row exists afterwards fails. -/
theorem sendVerificationCode_keeps_pending_code :
    rowsForPair
        (sendVerificationCode pendingCodeRows "a@b.c" "222222"
          VerificationPurpose.emailVerification 10)
        "a@b.c" VerificationPurpose.emailVerification = 2
    ∧ ¬ rowsForPair
        (sendVerificationCode pendingCodeRows "a@b.c" "222222"
          VerificationPurpose.emailVerification 10)
        "a@b.c" VerificationPurpose.emailVerification = 1 := by
  constructor <;> decide

/-- Claim C8 (amended): before the new code is stored, exactly the prior
rows for the same `(email, purpose)` pair that are expired
(`expires_at < now`) or already used are deleted; still-pending codes
survive.  A row is in the store after `send_verification_code` iff it is
a surviving prior row or the freshly inserted unused row. -/
theorem sendVerificationCode_membership
    (rows : List EmailVerification) (email code : String)
    (purpose : VerificationPurpose) (now : Int) (r : EmailVerification) :
    r ∈ sendVerificationCode rows email code purpose now
      ↔ ((r ∈ rows
            ∧ ¬(r.email = email ∧ r.purpose = purpose
                  ∧ (r.expiresAt < now ∨ r.used = true)))
          ∨ r = newVerificationRow email code purpose now) := by
  unfold sendVerificationCode cleanupOldVerificationCodes
  simp [List.mem_filter, List.mem_append, decide_eq_true_iff]
  tauto

/-- Witness for `sendVerificationCode_membership` at the concrete store
`pendingCodeRows`: the surviving pending row is still present after the
send. -/
theorem sendVerificationCode_membership_witness :
    { email := "a@b.c", code := "111111",
      purpose := VerificationPurpose.emailVerification,
      expiresAt := 1000, createdAt := 0, used := false }
      ∈ sendVerificationCode pendingCodeRows "a@b.c" "222222"
          VerificationPurpose.emailVerification 10 :=
  (sendVerificationCode_membership pendingCodeRows "a@b.c" "222222"
      VerificationPurpose.emailVerification 10
      { email := "a@b.c", code := "111111",
        purpose := VerificationPurpose.emailVerification,
        expiresAt := 1000, createdAt := 0, used := false }).mpr
    (Or.inl ⟨by decide, by decide⟩)

/-! ## Message store (`rustchat-core/src/database.rs`)

The `messages` table created by `init_tables` and the `MessageRecord`
row type of `database.rs`.  The JSON encoding of the `content_data`
column (raw string for Text/System, `{old_nick, new_nick}` object for
NickChange) is modelled by storing the `MessageType` value itself, since
that encoding is a bijection the claims do not touch. -/

/-- Column list of `CREATE TABLE messages` in
`MessageDatabase::init_tables` (`database.rs` lines 119-158). -/
def messagesTableColumns : List String :=
  ["id", "from_user_id", "content_type", "content_data", "timestamp",
   "from_nickname", "created_at"]

/-- The `MessageRecord` struct of `database.rs` lines 9-17 — the row shape
actually persisted.  It has no `room_id` (and no `additional_data`)
field. -/
structure MessageRecord where
  id : Nat
  fromUserId : Nat
  content : MessageType
  timestamp : Nat
  fromNickname : Option String
  deriving DecidableEq, Repr

/-- `impl From<&Message> for MessageRecord` (`database.rs` lines 19-43):
the message's `room_id` and `additional_data` are dropped. -/
def MessageRecord.ofMessage (m : Message) : MessageRecord :=
  { id := m.id, fromUserId := m.fromUser, content := m.content,
    timestamp := m.timestamp, fromNickname := m.fromNick }

/-- `impl TryFrom<MessageRecord> for Message` (`database.rs` lines 45-79):
the reconstructed message carries no `room_id` and no `additional_data`
— the record has nothing to restore them from. -/
def MessageRecord.toMessage (r : MessageRecord) : Message :=
  { id := r.id, fromUser := r.fromUserId, content := r.content,
    timestamp := r.timestamp, fromNick := r.fromNickname,
    roomId := none, additionalData := none }

/-- `MessageDatabase::save_message`: `INSERT OR REPLACE` keyed on `id`. -/
def saveMessage (rows : List MessageRecord) (m : Message) : List MessageRecord :=
  (rows.filter fun r => r.id ≠ m.id) ++ [MessageRecord.ofMessage m]

/-- A room text message as built by the `SendRoomMessage` handler
(`Message::new_text` plus `additional_data = {"room_id": 5}`) together
with a message whose `room_id` field is set (`Message::new_room_text`). -/
def sampleRoomMessage : Message :=
  { Message.newText 3 "hello" none 42 7 with roomId := some 5, additionalData := some 5 }

/-- Claim C6 (code bug): the store in `database.rs` has no `room_id`
column, `MessageRecord` drops a message's `room_id` on persist, and the
`by_room` query (`get_room_messages`, called by `room/api.rs` line 327)
does not exist in `database.rs` at all — persisting the room message
`sampleRoomMessage` and reading it back loses its `room_id`. -/
theorem messages_store_drops_room_id :
    "room_id" ∉ messagesTableColumns
    ∧ (MessageRecord.ofMessage sampleRoomMessage).toMessage.roomId = none
    ∧ sampleRoomMessage.roomId = some 5
    ∧ (saveMessage [] sampleRoomMessage).map MessageRecord.toMessage
        = [{ sampleRoomMessage with roomId := none, additionalData := none }] := by
  refine ⟨?_, rfl, rfl, ?_⟩ <;> decide

/-! ## Room registry (`room/mod.rs`, `room/manager.rs`)

`RoomId` and `UserId` are modelled as naturals; the fresh UUID minted by
`Room::new` is modelled by the `nextId` counter.  The two `HashMap`s of
`RoomManager` are association lists. -/

/-- The `Room` struct of `room/mod.rs` (sans the embedded id, which is
the registry key, and `created_at`). -/
structure Room where
  name : String
  owner : Nat
  members : Finset Nat
  description : Option String
  maxMembers : Option Nat
  deriving DecidableEq

/-- `RoomError` of `room/mod.rs`. -/
inductive RoomError
  | roomNotFound
  | userNotInRoom
  | userAlreadyInRoom
  | roomFull
  | permissionDenied
  | invalidRoomName
  deriving DecidableEq, Repr

/-- `CreateRoomRequest` of `room/mod.rs`. -/
structure CreateRoomRequest where
  name : String
  description : Option String
  maxMembers : Option Nat
  deriving DecidableEq

/-- `Room::new`: the owner is inserted as the sole member. -/
def Room.mk0 (name : String) (owner : Nat) : Room :=
  { name := name, owner := owner, members := {owner},
    description := none, maxMembers := none }

/-- `Room::is_member`. -/
def Room.isMember (r : Room) (u : Nat) : Bool :=
  decide (u ∈ r.members)

/-- `Room::add_member`: reject with `RoomFull` when
`members.len() >= max_members`; otherwise insert. -/
def Room.addMember (r : Room) (u : Nat) : Except RoomError Room :=
  match r.maxMembers with
  | some maxM =>
    if r.members.card ≥ maxM then Except.error RoomError.roomFull
    else Except.ok { r with members := insert u r.members }
  | none => Except.ok { r with members := insert u r.members }

/-- The `RoomManager` state: `rooms` and the reverse index `user_rooms`
(`manager.rs` lines 8-14), plus the fresh-id counter. -/
structure RegState where
  rooms : List (Nat × Room)
  userRooms : List (Nat × List Nat)
  nextId : Nat
  deriving DecidableEq

/-- `RoomManager::new`: both maps empty. -/
def RegState.init : RegState :=
  { rooms := [], userRooms := [], nextId := 0 }

/-- Room lookup (`rooms.get`). -/
def lookupRoom (s : RegState) (rid : Nat) : Option Room :=
  lookupA s.rooms rid

/-- The room list stored for a user in a reverse index (empty when the
key is absent). -/
def getUR (l : List (Nat × List Nat)) (uid : Nat) : List Nat :=
  (lookupA l uid).getD []

/-- The reverse index `user_rooms` entry for a user (empty when absent). -/
def roomsOf (s : RegState) (uid : Nat) : List Nat :=
  getUR s.userRooms uid

/-- In-place update of the room stored under a key (`rooms.get_mut`). -/
def setRoom (rooms : List (Nat × Room)) (rid : Nat) (r : Room) : List (Nat × Room) :=
  rooms.map fun p => if p.1 = rid then (rid, r) else p

/-- `rooms.remove(&room_id)`. -/
def eraseRoom (rooms : List (Nat × Room)) (rid : Nat) : List (Nat × Room) :=
  rooms.filter fun p => p.1 ≠ rid

/-- `user_rooms.entry(uid).or_insert_with(Vec::new).push(rid)`. -/
def pushUserRoom (l : List (Nat × List Nat)) (uid rid : Nat) : List (Nat × List Nat) :=
  match lookupA l uid with
  | some _ => l.map fun p => if p.1 = uid then (uid, p.2 ++ [rid]) else p
  | none => l ++ [(uid, [rid])]

/-- The `user_rooms` cleanup of `leave_room`/`delete_room`:
`rooms.retain(|&id| id != room_id)`, removing the key when the remaining
list is empty. -/
def retainUserRoom (l : List (Nat × List Nat)) (uid rid : Nat) : List (Nat × List Nat) :=
  match lookupA l uid with
  | none => l
  | some rids =>
    if (rids.filter fun i => i ≠ rid).isEmpty then l.filter fun p => p.1 ≠ uid
    else l.map fun p => if p.1 = uid then (uid, rids.filter fun i => i ≠ rid) else p

/-- `request.name.trim().is_empty()`: the trimmed name is empty iff every
character is whitespace (spelled on characters so that it evaluates). -/
def nameTrimEmpty (name : String) : Bool :=
  name.toList.all fun c => c.isWhitespace

/-- `RoomManager::create_room` (`manager.rs` lines 25-52): reject an
empty (trimmed) name, otherwise store the new room — with
`max_members` taken from the request unvalidated — and push its id onto
the owner's reverse-index entry.  Returns the new id and room snapshot. -/
def createRoom (s : RegState) (request : CreateRoomRequest) (owner : Nat) :
    Except RoomError (RegState × Nat × Room) :=
  if nameTrimEmpty request.name then Except.error RoomError.invalidRoomName
  else
    let room : Room :=
      { Room.mk0 request.name owner with
          description := request.description, maxMembers := request.maxMembers }
    let rid := s.nextId
    Except.ok
      ({ rooms := s.rooms ++ [(rid, room)],
         userRooms := pushUserRoom s.userRooms owner rid,
         nextId := rid + 1 }, rid, room)

/-- `RoomManager::join_room` (`manager.rs` lines 53-78). -/
def joinRoom (s : RegState) (rid uid : Nat) : Except RoomError (RegState × Room) :=
  match lookupRoom s rid with
  | none => Except.error RoomError.roomNotFound
  | some room =>
    if room.isMember uid then Except.error RoomError.userAlreadyInRoom
    else
      match room.addMember uid with
      | Except.error e => Except.error e
      | Except.ok room' =>
        Except.ok
          ({ s with rooms := setRoom s.rooms rid room',
                    userRooms := pushUserRoom s.userRooms uid rid }, room')

/-- `RoomManager::leave_room` (`manager.rs` lines 80-117).  When the
member set becomes empty the room is removed and the function returns
early — the source's `return Ok(room_to_remove)` inside the write-lock
block skips the `user_rooms` cleanup, so the departing user keeps a
dangling entry for the destroyed room. -/
def leaveRoom (s : RegState) (rid uid : Nat) : Except RoomError (RegState × Room) :=
  match lookupRoom s rid with
  | none => Except.error RoomError.roomNotFound
  | some room =>
    if ¬ room.isMember uid then Except.error RoomError.userNotInRoom
    else
      let room' : Room := { room with members := room.members.erase uid }
      if room'.members = ∅ then
        Except.ok ({ s with rooms := eraseRoom s.rooms rid }, room')
      else
        Except.ok
          ({ s with rooms := setRoom s.rooms rid room',
                    userRooms := retainUserRoom s.userRooms uid rid }, room')

/-- `RoomManager::delete_room` (`manager.rs` lines 164-194): owner only;
removes the room and cleans every member's reverse-index entry. -/
def deleteRoom (s : RegState) (rid uid : Nat) : Except RoomError (RegState × Room) :=
  match lookupRoom s rid with
  | none => Except.error RoomError.roomNotFound
  | some room =>
    if ¬ room.owner = uid then Except.error RoomError.permissionDenied
    else
      Except.ok
        ({ s with rooms := eraseRoom s.rooms rid,
                  userRooms := (room.members.sort (· ≤ ·)).foldl
                    (fun l m => retainUserRoom l m rid) s.userRooms }, room)

/-- `RoomManager::is_user_in_room`. -/
def isUserInRoom (s : RegState) (rid uid : Nat) : Bool :=
  match lookupRoom s rid with
  | some room => room.isMember uid
  | none => false

/-- One step of `RoomManager::handle_user_disconnect`: a `leave_room`
whose failure is logged and ignored. -/
def leaveStep (uid : Nat) (s : RegState) (rid : Nat) : RegState :=
  match leaveRoom s rid uid with
  | Except.ok (s', _) => s'
  | Except.error _ => s

/-- `RoomManager::handle_user_disconnect` (`manager.rs` lines 196-207):
snapshot the user's room list, then leave each room, ignoring failures. -/
def handleUserDisconnect (s : RegState) (uid : Nat) : RegState :=
  (roomsOf s uid).foldl (leaveStep uid) s

/-- The registry operations the claims quantify over. -/
inductive RegOp
  | create (request : CreateRoomRequest) (owner : Nat)
  | join (rid uid : Nat)
  | leave (rid uid : Nat)
  | delete (rid uid : Nat)
  | disconnect (uid : Nat)
  deriving DecidableEq

/-- Apply one operation, keeping the prior state on error (an erroring
call leaves the registry untouched). -/
def applyOp (s : RegState) (op : RegOp) : RegState :=
  match op with
  | RegOp.create req owner =>
    match createRoom s req owner with
    | Except.ok (s', _, _) => s'
    | Except.error _ => s
  | RegOp.join rid uid =>
    match joinRoom s rid uid with
    | Except.ok (s', _) => s'
    | Except.error _ => s
  | RegOp.leave rid uid => leaveStep uid s rid
  | RegOp.delete rid uid =>
    match deleteRoom s rid uid with
    | Except.ok (s', _) => s'
    | Except.error _ => s
  | RegOp.disconnect uid => handleUserDisconnect s uid

/-- The registry reached from a fresh `RoomManager` by a sequence of
operations. -/
def runOps (ops : List RegOp) : RegState :=
  ops.foldl applyOp RegState.init


/-! ### Association-list lemmas -/

@[simp] theorem lookupA_nil {β : Type} (k : Nat) : lookupA ([] : List (Nat × β)) k = none :=
  rfl

@[simp] theorem lookupA_cons {β : Type} (a : Nat) (b : β) (rest : List (Nat × β)) (k : Nat) :
    lookupA ((a, b) :: rest) k = if a = k then some b else lookupA rest k :=
  rfl

/-- A successful lookup exhibits a list element. -/
theorem lookupA_mem {β : Type} {l : List (Nat × β)} {k : Nat} {v : β}
    (h : lookupA l k = some v) : (k, v) ∈ l := by
  induction l with
  | nil => exact Option.noConfusion h
  | cons p rest ih =>
    obtain ⟨a, b⟩ := p
    rw [lookupA_cons] at h
    by_cases hp : a = k
    · subst hp
      rw [if_pos rfl] at h
      injection h with hv
      subst hv
      exact List.mem_cons_self _ _
    · rw [if_neg hp] at h
      exact List.mem_cons_of_mem _ (ih h)

/-- Lookup through an append when the left part hits. -/
theorem lookupA_append_left {β : Type} {l₁ : List (Nat × β)} (l₂ : List (Nat × β))
    {k : Nat} {v : β} (h : lookupA l₁ k = some v) : lookupA (l₁ ++ l₂) k = some v := by
  induction l₁ with
  | nil => exact Option.noConfusion h
  | cons p rest ih =>
    obtain ⟨a, b⟩ := p
    rw [lookupA_cons] at h
    rw [List.cons_append, lookupA_cons]
    by_cases hp : a = k
    · rw [if_pos hp] at h ⊢
      exact h
    · rw [if_neg hp] at h ⊢
      exact ih h

/-- Lookup through an append when the left part misses. -/
theorem lookupA_append_right {β : Type} {l₁ : List (Nat × β)} (l₂ : List (Nat × β))
    {k : Nat} (h : lookupA l₁ k = none) : lookupA (l₁ ++ l₂) k = lookupA l₂ k := by
  induction l₁ with
  | nil => rfl
  | cons p rest ih =>
    obtain ⟨a, b⟩ := p
    rw [lookupA_cons] at h
    rw [List.cons_append, lookupA_cons]
    by_cases hp : a = k
    · rw [if_pos hp] at h
      exact Option.noConfusion h
    · rw [if_neg hp] at h ⊢
      exact ih h

/-- Filtering out a different key leaves a lookup unchanged. -/
theorem lookupA_filter_ne_other {β : Type} {l : List (Nat × β)} {k u : Nat}
    (h : u ≠ k) : lookupA (l.filter fun p => p.1 ≠ k) u = lookupA l u := by
  induction l with
  | nil => rfl
  | cons p rest ih =>
    obtain ⟨a, b⟩ := p
    by_cases hp : a = k
    · subst hp
      have hau : ¬ a = u := fun he => h he.symm
      simpa [List.filter_cons, hau] using ih
    · by_cases hau : a = u
      · subst hau
        simp [List.filter_cons, hp]
      · simpa [List.filter_cons, hp, hau] using ih

/-- `setRoom` at the updated key. -/
theorem lookupA_setRoom_self (rooms : List (Nat × Room)) (rid : Nat) (r : Room) :
    lookupA (setRoom rooms rid r) rid = (lookupA rooms rid).map fun _ => r := by
  induction rooms with
  | nil => rfl
  | cons p rest ih =>
    obtain ⟨a, b⟩ := p
    simp only [setRoom] at ih ⊢
    by_cases hp : a = rid
    · subst hp
      simp
    · simp [hp, ih]

/-- `setRoom` at another key. -/
theorem lookupA_setRoom_ne (rooms : List (Nat × Room)) {rid : Nat} (r : Room)
    {k : Nat} (h : k ≠ rid) :
    lookupA (setRoom rooms rid r) k = lookupA rooms k := by
  induction rooms with
  | nil => rfl
  | cons p rest ih =>
    obtain ⟨a, b⟩ := p
    simp only [setRoom] at ih ⊢
    by_cases hp : a = rid
    · subst hp
      have hak : ¬ a = k := fun he => h he.symm
      simp [hak, ih]
    · by_cases hak : a = k
      · subst hak
        simp [hp]
      · simp [hp, hak, ih]

/-- Membership in a `setRoom` image: either the rewritten entry or an
untouched one. -/
theorem mem_setRoom {rooms : List (Nat × Room)} {rid : Nat} {r : Room}
    {p : Nat × Room} (h : p ∈ setRoom rooms rid r) :
    p = (rid, r) ∨ (p ∈ rooms ∧ p.1 ≠ rid) := by
  unfold setRoom at h
  rw [List.mem_map] at h
  obtain ⟨q, hq, hmap⟩ := h
  by_cases hqr : q.1 = rid
  · rw [if_pos hqr] at hmap
    exact Or.inl hmap.symm
  · rw [if_neg hqr] at hmap
    exact Or.inr ⟨hmap ▸ hq, hmap ▸ hqr⟩

/-- Membership in an `eraseRoom` image. -/
theorem mem_eraseRoom {rooms : List (Nat × Room)} {rid : Nat}
    {p : Nat × Room} (h : p ∈ eraseRoom rooms rid) : p ∈ rooms := by
  unfold eraseRoom at h
  exact (List.mem_filter.mp h).1

/-- The map update underlying the `some` branch of `pushUserRoom`, at the
pushed key. -/
theorem lookupA_pushMap_self {l : List (Nat × List Nat)} {uid rid : Nat} {rids : List Nat}
    (h : lookupA l uid = some rids) :
    lookupA (l.map fun p => if p.1 = uid then (uid, p.2 ++ [rid]) else p) uid
      = some (rids ++ [rid]) := by
  induction l with
  | nil => exact Option.noConfusion h
  | cons p rest ih =>
    obtain ⟨a, b⟩ := p
    rw [lookupA_cons] at h
    by_cases hp : a = uid
    · subst hp
      rw [if_pos rfl] at h
      injection h with hv
      subst hv
      simp
    · rw [if_neg hp] at h
      simp [hp, ih h]

/-- The map update underlying `pushUserRoom`, at a different key. -/
theorem lookupA_pushMap_ne (l : List (Nat × List Nat)) {uid : Nat} (rid : Nat)
    {u : Nat} (h : u ≠ uid) :
    lookupA (l.map fun p => if p.1 = uid then (uid, p.2 ++ [rid]) else p) u
      = lookupA l u := by
  induction l with
  | nil => rfl
  | cons p rest ih =>
    obtain ⟨a, b⟩ := p
    by_cases hp : a = uid
    · subst hp
      have hau : ¬ a = u := fun he => h he.symm
      simp [hau, ih]
    · by_cases hau : a = u
      · subst hau
        simp [hp]
      · simp [hp, hau, ih]

/-- `pushUserRoom` appends to the pushed user's list. -/
theorem getUR_push_self (l : List (Nat × List Nat)) (uid rid : Nat) :
    getUR (pushUserRoom l uid rid) uid = getUR l uid ++ [rid] := by
  unfold pushUserRoom
  cases h : lookupA l uid with
  | none =>
    show getUR (l ++ [(uid, [rid])]) uid = getUR l uid ++ [rid]
    unfold getUR
    rw [lookupA_append_right _ h, h]
    simp
  | some rids =>
    show getUR (l.map fun p => if p.1 = uid then (uid, p.2 ++ [rid]) else p) uid
        = getUR l uid ++ [rid]
    unfold getUR
    rw [h, lookupA_pushMap_self h]
    rfl

/-- `pushUserRoom` leaves other users' lists unchanged. -/
theorem getUR_push_ne (l : List (Nat × List Nat)) {uid : Nat} (rid : Nat)
    {u : Nat} (h : u ≠ uid) :
    getUR (pushUserRoom l uid rid) u = getUR l u := by
  unfold pushUserRoom
  cases hl : lookupA l uid with
  | none =>
    show getUR (l ++ [(uid, [rid])]) u = getUR l u
    unfold getUR
    cases hu : lookupA l u with
    | some v => rw [lookupA_append_left _ hu]
    | none =>
      rw [lookupA_append_right _ hu]
      rw [lookupA_cons, if_neg (fun he : uid = u => h he.symm)]
      rfl
  | some rids =>
    show getUR (l.map fun p => if p.1 = uid then (uid, p.2 ++ [rid]) else p) u
        = getUR l u
    unfold getUR
    rw [lookupA_pushMap_ne l rid h]


/-- The constant-value map update underlying `retainUserRoom`, at the
updated key. -/
theorem lookupA_retainMap_self {l : List (Nat × List Nat)} {uid : Nat} {rids : List Nat}
    (v : List Nat) (h : lookupA l uid = some rids) :
    lookupA (l.map fun p => if p.1 = uid then (uid, v) else p) uid = some v := by
  induction l with
  | nil => exact Option.noConfusion h
  | cons p rest ih =>
    obtain ⟨a, b⟩ := p
    rw [lookupA_cons] at h
    by_cases hp : a = uid
    · subst hp
      simp
    · rw [if_neg hp] at h
      simp [hp, ih h]

/-- The constant-value map update underlying `retainUserRoom`, at another
key. -/
theorem lookupA_retainMap_ne (l : List (Nat × List Nat)) {uid : Nat} (v : List Nat)
    {u : Nat} (h : u ≠ uid) :
    lookupA (l.map fun p => if p.1 = uid then (uid, v) else p) u = lookupA l u := by
  induction l with
  | nil => rfl
  | cons p rest ih =>
    obtain ⟨a, b⟩ := p
    by_cases hp : a = uid
    · subst hp
      have hau : ¬ a = u := fun he => h he.symm
      simp [hau, ih]
    · by_cases hau : a = u
      · subst hau
        simp [hp]
      · simp [hp, hau, ih]

/-- `retainUserRoom` filters the retained user's list. -/
theorem getUR_retain_self (l : List (Nat × List Nat)) (uid rid : Nat) :
    getUR (retainUserRoom l uid rid) uid = (getUR l uid).filter fun i => i ≠ rid := by
  unfold retainUserRoom
  cases h : lookupA l uid with
  | none =>
    unfold getUR
    rw [h]
    rfl
  | some rids =>
    show getUR
        (if (rids.filter fun i => i ≠ rid).isEmpty then l.filter fun p => p.1 ≠ uid
         else l.map fun p => if p.1 = uid then (uid, rids.filter fun i => i ≠ rid) else p) uid
      = (getUR l uid).filter fun i => i ≠ rid
    by_cases he : ((rids.filter fun i => i ≠ rid).isEmpty : Bool) = true
    · rw [if_pos he]
      unfold getUR
      rw [lookupA_filter_ne l uid, h]
      rw [List.isEmpty_iff] at he
      rw [← he]
      rfl
    · rw [if_neg he]
      unfold getUR
      rw [lookupA_retainMap_self _ h, h]
      rfl

/-- `retainUserRoom` leaves other users' lists unchanged. -/
theorem getUR_retain_ne (l : List (Nat × List Nat)) {uid : Nat} (rid : Nat)
    {u : Nat} (h : u ≠ uid) :
    getUR (retainUserRoom l uid rid) u = getUR l u := by
  unfold retainUserRoom
  cases hl : lookupA l uid with
  | none => rfl
  | some rids =>
    show getUR
        (if (rids.filter fun i => i ≠ rid).isEmpty then l.filter fun p => p.1 ≠ uid
         else l.map fun p => if p.1 = uid then (uid, rids.filter fun i => i ≠ rid) else p) u
      = getUR l u
    by_cases he : ((rids.filter fun i => i ≠ rid).isEmpty : Bool) = true
    · rw [if_pos he]
      unfold getUR
      rw [lookupA_filter_ne_other h]
    · rw [if_neg he]
      unfold getUR
      rw [lookupA_retainMap_ne _ _ h]

/-- A fold of `retainUserRoom` calls for one room id never removes other
room ids from any user's list. -/
theorem mem_getUR_fold_retain (uids : List Nat) (l : List (Nat × List Nat))
    {u rid rid' : Nat} (hne : rid' ≠ rid) (hmem : rid' ∈ getUR l u) :
    rid' ∈ getUR (uids.foldl (fun acc m => retainUserRoom acc m rid) l) u := by
  induction uids generalizing l with
  | nil => exact hmem
  | cons m rest ih =>
    rw [List.foldl_cons]
    apply ih
    by_cases hm : u = m
    · subst hm
      rw [getUR_retain_self]
      rw [List.mem_filter]
      exact ⟨hmem, by simpa using hne⟩
    · rw [getUR_retain_ne _ _ hm]
      exact hmem

/-! ### Success-shape lemmas for the registry operations -/

/-- What a successful `create_room` produces. -/
theorem createRoom_ok {s : RegState} {req : CreateRoomRequest} {owner : Nat}
    {s' : RegState} {rid : Nat} {room : Room}
    (h : createRoom s req owner = Except.ok (s', rid, room)) :
    rid = s.nextId
    ∧ room = { name := req.name, owner := owner, members := {owner},
               description := req.description, maxMembers := req.maxMembers }
    ∧ s' = { rooms := s.rooms ++ [(s.nextId, room)],
             userRooms := pushUserRoom s.userRooms owner s.nextId,
             nextId := s.nextId + 1 } := by
  unfold createRoom at h
  by_cases hname : nameTrimEmpty req.name = true
  · rw [if_pos hname] at h
    exact Except.noConfusion h
  · rw [if_neg hname] at h
    injection h with h'
    injection h' with h₁ h₂
    injection h₂ with h₃ h₄
    subst h₁
    subst h₃
    subst h₄
    exact ⟨rfl, rfl, rfl⟩

/-- What a successful `join_room` implies. -/
theorem joinRoom_ok {s : RegState} {rid uid : Nat} {s' : RegState} {room' : Room}
    (h : joinRoom s rid uid = Except.ok (s', room')) :
    ∃ room, lookupRoom s rid = some room
      ∧ room.isMember uid = false
      ∧ Room.addMember room uid = Except.ok room'
      ∧ s' = { s with rooms := setRoom s.rooms rid room',
                      userRooms := pushUserRoom s.userRooms uid rid } := by
  unfold joinRoom at h
  cases hlr : lookupRoom s rid with
  | none =>
    simp only [hlr] at h
    exact Except.noConfusion h
  | some room =>
    simp only [hlr] at h
    by_cases hm : room.isMember uid = true
    · rw [if_pos hm] at h
      exact Except.noConfusion h
    · rw [if_neg hm] at h
      cases ha : Room.addMember room uid with
      | error e =>
        simp only [ha] at h
        exact Except.noConfusion h
      | ok r' =>
        simp only [ha] at h
        injection h with h'
        injection h' with h₁ h₂
        subst h₂
        exact ⟨room, rfl, by simpa using hm, ha, h₁.symm⟩

/-- What a successful `leave_room` implies: either the emptied room was
destroyed (and `user_rooms` left untouched — the early return), or the
shrunken room was stored back and the reverse index cleaned. -/
theorem leaveRoom_ok {s : RegState} {rid uid : Nat} {s' : RegState} {room' : Room}
    (h : leaveRoom s rid uid = Except.ok (s', room')) :
    ∃ room, lookupRoom s rid = some room
      ∧ room.isMember uid = true
      ∧ room' = { room with members := room.members.erase uid }
      ∧ ((room'.members = ∅ ∧ s' = { s with rooms := eraseRoom s.rooms rid })
          ∨ (room'.members ≠ ∅
              ∧ s' = { s with rooms := setRoom s.rooms rid room',
                              userRooms := retainUserRoom s.userRooms uid rid })) := by
  unfold leaveRoom at h
  cases hlr : lookupRoom s rid with
  | none =>
    simp only [hlr] at h
    exact Except.noConfusion h
  | some room =>
    simp only [hlr] at h
    by_cases hm : room.isMember uid = true
    · rw [if_neg (not_not_intro hm)] at h
      by_cases hemp : ({ room with members := room.members.erase uid } : Room).members = ∅
      · rw [if_pos hemp] at h
        injection h with h'
        injection h' with h₁ h₂
        subst h₂
        exact ⟨room, rfl, hm, rfl, Or.inl ⟨hemp, h₁.symm⟩⟩
      · rw [if_neg hemp] at h
        injection h with h'
        injection h' with h₁ h₂
        subst h₂
        exact ⟨room, rfl, hm, rfl, Or.inr ⟨hemp, h₁.symm⟩⟩
    · rw [if_pos hm] at h
      exact Except.noConfusion h

/-- What a successful `delete_room` implies. -/
theorem deleteRoom_ok {s : RegState} {rid uid : Nat} {s' : RegState} {room : Room}
    (h : deleteRoom s rid uid = Except.ok (s', room)) :
    lookupRoom s rid = some room
    ∧ room.owner = uid
    ∧ s' = { s with rooms := eraseRoom s.rooms rid,
                    userRooms := (room.members.sort (· ≤ ·)).foldl
                      (fun l m => retainUserRoom l m rid) s.userRooms } := by
  unfold deleteRoom at h
  cases hlr : lookupRoom s rid with
  | none =>
    simp only [hlr] at h
    exact Except.noConfusion h
  | some room₀ =>
    simp only [hlr] at h
    by_cases ho : room₀.owner = uid
    · rw [if_neg (not_not_intro ho)] at h
      injection h with h'
      injection h' with h₁ h₂
      subst h₂
      exact ⟨rfl, ho, h₁.symm⟩
    · rw [if_pos ho] at h
      exact Except.noConfusion h

/-- What a successful `add_member` implies. -/
theorem addMember_ok {r : Room} {u : Nat} {r' : Room}
    (h : Room.addMember r u = Except.ok r') :
    r' = { r with members := insert u r.members }
    ∧ ∀ m, r.maxMembers = some m → r.members.card < m := by
  unfold Room.addMember at h
  cases hm : r.maxMembers with
  | none =>
    simp only [hm] at h
    injection h with h'
    refine ⟨h'.symm, fun m hmm => ?_⟩
    exact Option.noConfusion hmm
  | some maxM =>
    simp only [hm] at h
    by_cases hc : r.members.card ≥ maxM
    · rw [if_pos hc] at h
      exact Except.noConfusion h
    · rw [if_neg hc] at h
      injection h with h'
      refine ⟨h'.symm, fun m hmm => ?_⟩
      injection hmm with he
      omega

/-! ### Registry invariants -/

/-- Capacity: every room with a `max_members` bound `m` has at most
`max m 1` members (the owner is seated unconditionally at creation, so a
`m = 0` room still has its single member). -/
def capInv (s : RegState) : Prop :=
  ∀ p ∈ s.rooms, ∀ m, p.2.maxMembers = some m → p.2.members.card ≤ Nat.max m 1

/-- Forward cross-structure consistency: a member of a stored room has
that room recorded in the reverse index. -/
def fwdInv (s : RegState) : Prop :=
  ∀ rid room uid, lookupRoom s rid = some room → uid ∈ room.members →
    rid ∈ roomsOf s uid

/-- The invariant every registry operation preserves. -/
def regInv (s : RegState) : Prop := capInv s ∧ fwdInv s

/-- A fold preserves any invariant its step preserves. -/
theorem foldl_invariant {σ α : Type} (P : σ → Prop) (f : σ → α → σ)
    (hf : ∀ s x, P s → P (f s x)) (l : List α) (s : σ) (hs : P s) :
    P (l.foldl f s) := by
  induction l generalizing s with
  | nil => exact hs
  | cons x rest ih => exact ih _ (hf s x hs)

theorem regInv_init : regInv RegState.init := by
  constructor
  · intro p hp
    exact absurd hp (List.not_mem_nil p)
  · intro rid room uid hl
    simp [lookupRoom, RegState.init, lookupA] at hl

theorem createRoom_regInv {s : RegState} {req : CreateRoomRequest} {owner : Nat}
    {s' : RegState} {rid : Nat} {room : Room}
    (h : createRoom s req owner = Except.ok (s', rid, room))
    (hs : regInv s) : regInv s' := by
  obtain ⟨hcap, hfwd⟩ := hs
  obtain ⟨hrid, hroom, hs'⟩ := createRoom_ok h
  subst hs'
  constructor
  · intro p hp m hm
    rcases List.mem_append.mp hp with hold | hnew
    · exact hcap p hold m hm
    · rw [List.mem_singleton] at hnew
      subst hnew
      simp only at hm
      rw [hroom] at hm ⊢
      simp only at hm ⊢
      rw [Finset.card_singleton]
      exact Nat.le_max_right m 1
  · intro rid' room₂ uid hl hmem
    simp only [lookupRoom] at hl
    simp only [roomsOf]
    cases hold : lookupA s.rooms rid' with
    | some r₀ =>
      rw [lookupA_append_left _ hold] at hl
      injection hl with he
      rw [← he] at hmem
      have hin := hfwd rid' r₀ uid hold hmem
      simp only [roomsOf] at hin
      by_cases hu : uid = owner
      · subst hu
        rw [getUR_push_self]
        exact List.mem_append_left _ hin
      · rw [getUR_push_ne _ _ hu]
        exact hin
    | none =>
      rw [lookupA_append_right _ hold, lookupA_cons] at hl
      by_cases hn : s.nextId = rid'
      · rw [if_pos hn] at hl
        injection hl with he
        subst he
        rw [hroom] at hmem
        simp only at hmem
        rw [Finset.mem_singleton] at hmem
        subst hmem
        rw [getUR_push_self]
        rw [← hn]
        exact List.mem_append_right _ (List.mem_singleton.mpr rfl)
      · rw [if_neg hn] at hl
        exact Option.noConfusion hl

theorem joinRoom_regInv {s : RegState} {rid uid : Nat} {s' : RegState} {room' : Room}
    (h : joinRoom s rid uid = Except.ok (s', room'))
    (hs : regInv s) : regInv s' := by
  obtain ⟨hcap, hfwd⟩ := hs
  obtain ⟨room, hlr, hnm, ha, hs'⟩ := joinRoom_ok h
  obtain ⟨hr', hlt⟩ := addMember_ok ha
  subst hs'
  have huid : uid ∉ room.members := by
    intro hc
    rw [Room.isMember, decide_eq_false_iff_not] at hnm
    exact hnm hc
  constructor
  · intro p hp m hm
    rcases mem_setRoom hp with hnew | ⟨hold, _⟩
    · subst hnew
      simp only at hm ⊢
      rw [hr'] at hm ⊢
      simp only at hm ⊢
      have hlt' := hlt m hm
      calc (insert uid room.members).card
          ≤ room.members.card + 1 := Finset.card_insert_le uid room.members
        _ ≤ m := hlt'
        _ ≤ Nat.max m 1 := Nat.le_max_left m 1
    · exact hcap p hold m hm
  · intro rid' room₂ w hl hmem
    simp only [lookupRoom] at hl
    simp only [roomsOf]
    by_cases hrid : rid' = rid
    · subst hrid
      rw [lookupA_setRoom_self] at hl
      simp only [lookupRoom] at hlr
      rw [hlr] at hl
      injection hl with he
      subst he
      rw [hr'] at hmem
      simp only at hmem
      rcases Finset.mem_insert.mp hmem with hw | hw
      · subst hw
        rw [getUR_push_self]
        exact List.mem_append_right _ (List.mem_singleton.mpr rfl)
      · have hin := hfwd rid' room w hlr hw
        simp only [roomsOf] at hin
        by_cases hwu : w = uid
        · subst hwu
          rw [getUR_push_self]
          exact List.mem_append_left _ hin
        · rw [getUR_push_ne _ _ hwu]
          exact hin
    · rw [lookupA_setRoom_ne _ _ hrid] at hl
      have hin := hfwd rid' room₂ w hl hmem
      simp only [roomsOf] at hin
      by_cases hwu : w = uid
      · subst hwu
        rw [getUR_push_self]
        exact List.mem_append_left _ hin
      · rw [getUR_push_ne _ _ hwu]
        exact hin

theorem leaveStep_regInv (uid : Nat) (s : RegState) (rid : Nat)
    (hs : regInv s) : regInv (leaveStep uid s rid) := by
  obtain ⟨hcap, hfwd⟩ := hs
  unfold leaveStep
  cases hres : leaveRoom s rid uid with
  | error e => exact ⟨hcap, hfwd⟩
  | ok out =>
    obtain ⟨s', room'⟩ := out
    obtain ⟨room, hlr, hm, hr', hbr⟩ := leaveRoom_ok hres
    rcases hbr with ⟨hemp, hs'⟩ | ⟨hne, hs'⟩
    · subst hs'
      constructor
      · intro p hp m hmm
        exact hcap p (mem_eraseRoom hp) m hmm
      · intro rid' room₂ w hl hmem
        simp only [lookupRoom] at hl
        simp only [roomsOf]
        by_cases hrid : rid' = rid
        · subst hrid
          unfold eraseRoom at hl
          rw [lookupA_filter_ne] at hl
          exact Option.noConfusion hl
        · unfold eraseRoom at hl
          rw [lookupA_filter_ne_other hrid] at hl
          exact hfwd rid' room₂ w hl hmem
    · subst hs'
      constructor
      · intro p hp m hmm
        rcases mem_setRoom hp with hnew | ⟨hold, _⟩
        · subst hnew
          simp only at hmm ⊢
          rw [hr'] at hmm ⊢
          simp only at hmm ⊢
          have := hcap (rid, room) (lookupA_mem hlr) m hmm
          simp only at this
          calc (room.members.erase uid).card
              ≤ room.members.card := Finset.card_le_card (Finset.erase_subset uid room.members)
            _ ≤ Nat.max m 1 := this
        · exact hcap p hold m hmm
      · intro rid' room₂ w hl hmem
        simp only [lookupRoom] at hl
        simp only [roomsOf]
        by_cases hrid : rid' = rid
        · subst hrid
          rw [lookupA_setRoom_self] at hl
          simp only [lookupRoom] at hlr
          rw [hlr] at hl
          injection hl with he
          subst he
          rw [hr'] at hmem
          simp only at hmem
          obtain ⟨hwne, hw⟩ := Finset.mem_erase.mp hmem
          have hin := hfwd rid' room w hlr hw
          simp only [roomsOf] at hin
          rw [getUR_retain_ne _ _ hwne]
          exact hin
        · rw [lookupA_setRoom_ne _ _ hrid] at hl
          have hin := hfwd rid' room₂ w hl hmem
          simp only [roomsOf] at hin
          by_cases hwu : w = uid
          · subst hwu
            rw [getUR_retain_self]
            rw [List.mem_filter]
            exact ⟨hin, by simpa using hrid⟩
          · rw [getUR_retain_ne _ _ hwu]
            exact hin

theorem deleteRoom_regInv {s : RegState} {rid uid : Nat} {s' : RegState} {room : Room}
    (h : deleteRoom s rid uid = Except.ok (s', room))
    (hs : regInv s) : regInv s' := by
  obtain ⟨hcap, hfwd⟩ := hs
  obtain ⟨hlr, ho, hs'⟩ := deleteRoom_ok h
  subst hs'
  constructor
  · intro p hp m hmm
    exact hcap p (mem_eraseRoom hp) m hmm
  · intro rid' room₂ w hl hmem
    simp only [lookupRoom] at hl
    simp only [roomsOf]
    by_cases hrid : rid' = rid
    · subst hrid
      unfold eraseRoom at hl
      rw [lookupA_filter_ne] at hl
      exact Option.noConfusion hl
    · unfold eraseRoom at hl
      rw [lookupA_filter_ne_other hrid] at hl
      have hin := hfwd rid' room₂ w hl hmem
      simp only [roomsOf] at hin
      exact mem_getUR_fold_retain _ _ hrid hin

theorem applyOp_regInv (s : RegState) (op : RegOp) (hs : regInv s) :
    regInv (applyOp s op) := by
  cases op with
  | create req owner =>
    simp only [applyOp]
    cases hc : createRoom s req owner with
    | error e => exact hs
    | ok out =>
      obtain ⟨s', rid, room⟩ := out
      exact createRoom_regInv hc hs
  | join rid uid =>
    simp only [applyOp]
    cases hc : joinRoom s rid uid with
    | error e => exact hs
    | ok out =>
      obtain ⟨s', room'⟩ := out
      exact joinRoom_regInv hc hs
  | leave rid uid => exact leaveStep_regInv uid s rid hs
  | delete rid uid =>
    simp only [applyOp]
    cases hc : deleteRoom s rid uid with
    | error e => exact hs
    | ok out =>
      obtain ⟨s', room⟩ := out
      exact deleteRoom_regInv hc hs
  | disconnect uid =>
    simp only [applyOp]
    unfold handleUserDisconnect
    exact foldl_invariant regInv (leaveStep uid)
      (fun st rid h => leaveStep_regInv uid st rid h) (roomsOf s uid) s hs

/-- Every state reachable from a fresh registry satisfies the invariant. -/
theorem runOps_regInv (ops : List RegOp) : regInv (runOps ops) := by
  unfold runOps
  exact foldl_invariant regInv applyOp applyOp_regInv ops RegState.init regInv_init

/-! ### Owner membership (guarded) -/

/-- Owner membership: every stored room still contains its owner. -/
def ownerInv (s : RegState) : Prop :=
  ∀ p ∈ s.rooms, p.2.owner ∈ p.2.members

instance ownerInvDecidable (s : RegState) : Decidable (ownerInv s) :=
  List.decidableBAll _ s.rooms

/-- `uid` owns no stored room. -/
def notOwner (uid : Nat) (s : RegState) : Prop :=
  ∀ p ∈ s.rooms, p.2.owner ≠ uid

/-- Guard under which an operation cannot unseat an owner: a `leave` must
not be by the owner of the room being left, and a disconnecting user must
own no room. -/
def ownerSafeB (s : RegState) : RegOp → Bool
  | RegOp.leave rid uid =>
    match lookupRoom s rid with
    | some room => decide (¬ room.owner = uid)
    | none => true
  | RegOp.disconnect uid => s.rooms.all fun p => decide (¬ p.2.owner = uid)
  | _ => true

/-- The guard threaded along a whole operation sequence. -/
def opsOwnerSafe : RegState → List RegOp → Bool
  | _, [] => true
  | s, op :: rest => ownerSafeB s op && opsOwnerSafe (applyOp s op) rest

theorem leaveStep_ownerInv (s : RegState) (uid rid : Nat) (hInv : ownerInv s)
    (hguard : ∀ room, lookupRoom s rid = some room → room.owner ≠ uid) :
    ownerInv (leaveStep uid s rid) := by
  unfold leaveStep
  cases hres : leaveRoom s rid uid with
  | error e => exact hInv
  | ok out =>
    obtain ⟨s', room'⟩ := out
    obtain ⟨room, hlr, hm, hr', hbr⟩ := leaveRoom_ok hres
    rcases hbr with ⟨hemp, hs'⟩ | ⟨hne, hs'⟩
    · subst hs'
      intro p hp
      exact hInv p (mem_eraseRoom hp)
    · subst hs'
      intro p hp
      rcases mem_setRoom hp with hnew | ⟨hold, _⟩
      · subst hnew
        simp only
        rw [hr']
        simp only
        have hmem := hInv (rid, room) (lookupA_mem hlr)
        simp only at hmem
        exact Finset.mem_erase.mpr ⟨hguard room hlr, hmem⟩
      · exact hInv p hold

theorem leaveStep_notOwner (w uid : Nat) (s : RegState) (rid : Nat)
    (hno : notOwner w s) : notOwner w (leaveStep uid s rid) := by
  unfold leaveStep
  cases hres : leaveRoom s rid uid with
  | error e => exact hno
  | ok out =>
    obtain ⟨s', room'⟩ := out
    obtain ⟨room, hlr, hm, hr', hbr⟩ := leaveRoom_ok hres
    rcases hbr with ⟨hemp, hs'⟩ | ⟨hne, hs'⟩
    · subst hs'
      intro p hp
      exact hno p (mem_eraseRoom hp)
    · subst hs'
      intro p hp
      rcases mem_setRoom hp with hnew | ⟨hold, _⟩
      · subst hnew
        simp only
        rw [hr']
        simp only
        exact hno (rid, room) (lookupA_mem hlr)
      · exact hno p hold

theorem disconnect_ownerInv (s : RegState) (uid : Nat)
    (hInv : ownerInv s) (hno : notOwner uid s) :
    ownerInv (handleUserDisconnect s uid) := by
  unfold handleUserDisconnect
  have := foldl_invariant (fun st => ownerInv st ∧ notOwner uid st) (leaveStep uid)
    (fun st rid h => by
      refine ⟨leaveStep_ownerInv st uid rid h.1 (fun room hlr => ?_), leaveStep_notOwner uid uid st rid h.2⟩
      exact h.2 (rid, room) (lookupA_mem hlr))
    (roomsOf s uid) s ⟨hInv, hno⟩
  exact this.1

theorem applyOp_ownerInv (s : RegState) (op : RegOp)
    (hInv : ownerInv s) (hsafe : ownerSafeB s op = true) :
    ownerInv (applyOp s op) := by
  cases op with
  | create req owner =>
    simp only [applyOp]
    cases hc : createRoom s req owner with
    | error e => exact hInv
    | ok out =>
      obtain ⟨s', rid, room⟩ := out
      obtain ⟨hrid, hroom, hs'⟩ := createRoom_ok hc
      subst hs'
      intro p hp
      rcases List.mem_append.mp hp with hold | hnew
      · exact hInv p hold
      · rw [List.mem_singleton] at hnew
        subst hnew
        simp only
        rw [hroom]
        simp only
        exact Finset.mem_singleton_self owner
  | join rid uid =>
    simp only [applyOp]
    cases hc : joinRoom s rid uid with
    | error e => exact hInv
    | ok out =>
      obtain ⟨s', room'⟩ := out
      obtain ⟨room, hlr, hnm, ha, hs'⟩ := joinRoom_ok hc
      obtain ⟨hr', _⟩ := addMember_ok ha
      subst hs'
      intro p hp
      rcases mem_setRoom hp with hnew | ⟨hold, _⟩
      · subst hnew
        simp only
        rw [hr']
        simp only
        exact Finset.mem_insert_of_mem (hInv (rid, room) (lookupA_mem hlr))
      · exact hInv p hold
  | leave rid uid =>
    simp only [applyOp]
    apply leaveStep_ownerInv s uid rid hInv
    intro room hlr
    simp only [ownerSafeB] at hsafe
    rw [hlr] at hsafe
    exact of_decide_eq_true hsafe
  | delete rid uid =>
    simp only [applyOp]
    cases hc : deleteRoom s rid uid with
    | error e => exact hInv
    | ok out =>
      obtain ⟨s', room⟩ := out
      obtain ⟨hlr, ho, hs'⟩ := deleteRoom_ok hc
      subst hs'
      intro p hp
      exact hInv p (mem_eraseRoom hp)
  | disconnect uid =>
    simp only [applyOp]
    apply disconnect_ownerInv s uid hInv
    intro p hp
    simp only [ownerSafeB] at hsafe
    rw [List.all_eq_true] at hsafe
    exact of_decide_eq_true (hsafe p hp)

theorem opsOwnerSafe_ownerInv (ops : List RegOp) :
    ∀ s : RegState, ownerInv s → opsOwnerSafe s ops = true →
      ownerInv (ops.foldl applyOp s) := by
  induction ops with
  | nil => exact fun s h _ => h
  | cons op rest ih =>
    intro s hInv hsafe
    rw [opsOwnerSafe, Bool.and_eq_true] at hsafe
    rw [List.foldl_cons]
    exact ih (applyOp s op) (applyOp_ownerInv s op hInv hsafe.1) hsafe.2

/-- Claim C1 (corrected, counterexample): the owner may leave a room that
still has other members; the room then survives without its owner.
After `create_room` by user 0, `join_room` by user 1 and `leave_room` by
the owner 0, room 0 is still stored and violates `owner ∈ members`. -/
theorem ownerInv_fails_when_owner_leaves :
    ¬ ownerInv (runOps
      [RegOp.create ⟨"a", none, none⟩ 0, RegOp.join 0 1, RegOp.leave 0 0]) := by
  decide

/-- Claim C1 (amended): `R.owner ∈ R.members` holds for every room still
present after any operation sequence in which no successful `leave_room`
removes the owner of the room being left and every disconnected user
owns no room — the source never prevents the owner from leaving, so the
invariant holds only under that guard. -/
theorem ownerInv_of_ownerSafe (ops : List RegOp)
    (hsafe : opsOwnerSafe RegState.init ops = true) :
    ownerInv (runOps ops) := by
  unfold runOps
  apply opsOwnerSafe_ownerInv ops RegState.init
  · intro p hp
    exact absurd hp (List.not_mem_nil p)
  · exact hsafe

/-- Witness for `ownerInv_of_ownerSafe`: a creation followed by a
member's (not the owner's) leave keeps the owner seated. -/
theorem ownerInv_of_ownerSafe_witness :
    opsOwnerSafe RegState.init
      [RegOp.create ⟨"a", none, none⟩ 0, RegOp.join 0 1, RegOp.leave 0 1] = true
    ∧ ownerInv (runOps
      [RegOp.create ⟨"a", none, none⟩ 0, RegOp.join 0 1, RegOp.leave 0 1]) :=
  ⟨by decide,
   ownerInv_of_ownerSafe
     [RegOp.create ⟨"a", none, none⟩ 0, RegOp.join 0 1, RegOp.leave 0 1] (by decide)⟩

/-- Claim C7 (corrected, counterexample): when `leave_room` destroys a
just-emptied room it returns before the `user_rooms` cleanup, so the
departing user keeps a dangling entry — after `create_room` by user 0
and `leave_room` by user 0, no room 0 exists but `rooms_of(0)` still
contains it, falsifying `U ∈ R.members ⇔ R ∈ rooms_of(U)`. -/
theorem reverse_index_dangles_after_destroy :
    lookupRoom (runOps [RegOp.create ⟨"a", none, none⟩ 0, RegOp.leave 0 0]) 0 = none
    ∧ 0 ∈ roomsOf (runOps [RegOp.create ⟨"a", none, none⟩ 0, RegOp.leave 0 0]) 0
    ∧ ¬ ((isUserInRoom (runOps [RegOp.create ⟨"a", none, none⟩ 0, RegOp.leave 0 0]) 0 0 = true)
          ↔ 0 ∈ roomsOf (runOps [RegOp.create ⟨"a", none, none⟩ 0, RegOp.leave 0 0]) 0) := by
  refine ⟨?_, ?_, ?_⟩ <;> decide

/-- Claim C7 (amended): the forward inclusion holds after every sequence
of operations: whenever `U ∈ R.members` for a room `R` still in the
registry, `R ∈ rooms_of(U)`.  (The reverse inclusion can fail only
through the dangling entry left by the destroy-on-empty path of
`leave_room`.) -/
theorem member_implies_recorded (ops : List RegOp) (rid : Nat) (room : Room)
    (uid : Nat) (hl : lookupRoom (runOps ops) rid = some room)
    (hm : uid ∈ room.members) :
    rid ∈ roomsOf (runOps ops) uid :=
  (runOps_regInv ops).2 rid room uid hl hm

/-- Witness for `member_implies_recorded` after a create and a join. -/
theorem member_implies_recorded_witness :
    lookupRoom (runOps [RegOp.create ⟨"a", none, none⟩ 0, RegOp.join 0 1]) 0
      = some { name := "a", owner := 0, members := insert 1 {0},
               description := none, maxMembers := none }
    ∧ (1 : Nat) ∈
        ({ name := "a", owner := 0, members := insert 1 {0},
           description := none, maxMembers := none } : Room).members
    ∧ 0 ∈ roomsOf (runOps [RegOp.create ⟨"a", none, none⟩ 0, RegOp.join 0 1]) 1 :=
  ⟨by decide, by decide,
   member_implies_recorded [RegOp.create ⟨"a", none, none⟩ 0, RegOp.join 0 1] 0
     { name := "a", owner := 0, members := insert 1 {0},
       description := none, maxMembers := none } 1 (by decide) (by decide)⟩

/-- Claim C10 (confirmed): `create_room` never validates `max_members`
(creation succeeds for any requested bound, seating the owner as sole
member), a room created with `max_members = 0` rejects every prospective
new joiner with `RoomFull` (a current member gets `UserAlreadyInRoom`
first, so `RoomFull` is the answer to every join that could otherwise
succeed), and the capacity bound `|members| ≤ m` is an invariant of all
reachable states for every room whose bound satisfies `m ≥ 1`. -/
theorem createRoom_maxMembers_unvalidated :
    (∀ (s : RegState) (req : CreateRoomRequest) (owner m : Nat),
      req.maxMembers = some m → nameTrimEmpty req.name = false →
      ∃ s' rid room, createRoom s req owner = Except.ok (s', rid, room)
        ∧ room.members = {owner} ∧ room.maxMembers = some m)
    ∧ (∀ (s : RegState) (rid : Nat) (room : Room) (uid : Nat),
        lookupRoom s rid = some room → room.maxMembers = some 0 →
        room.isMember uid = false →
        joinRoom s rid uid = Except.error RoomError.roomFull)
    ∧ (∀ (ops : List RegOp) (p : Nat × Room) (m : Nat),
        p ∈ (runOps ops).rooms → p.2.maxMembers = some m → 1 ≤ m →
        p.2.members.card ≤ m) := by
  refine ⟨?_, ?_, ?_⟩
  · intro s req owner m hm hname
    unfold createRoom
    rw [if_neg (by rw [hname]; exact Bool.false_ne_true)]
    exact ⟨_, _, _, rfl, rfl, hm⟩
  · intro s rid room uid hl hmax hnm
    unfold joinRoom
    rw [hl]
    simp only
    rw [if_neg (by simp [hnm])]
    have : Room.addMember room uid = Except.error RoomError.roomFull := by
      unfold Room.addMember
      rw [hmax]
      simp only
      rw [if_pos (Nat.zero_le _)]
    rw [this]
  · intro ops p m hp hm h1
    have := (runOps_regInv ops).1 p hp m hm
    exact le_trans this (Nat.max_le.mpr ⟨Nat.le_refl m, h1⟩)

/-- Witness for `createRoom_maxMembers_unvalidated`: a room created with
`max_members = 0` exists, its owner is seated, and a join by another
user is refused with `RoomFull`. -/
theorem createRoom_maxMembers_unvalidated_witness :
    (∃ s' rid room,
      createRoom RegState.init ⟨"a", none, some 0⟩ 7 = Except.ok (s', rid, room)
      ∧ room.members = ({7} : Finset Nat) ∧ room.maxMembers = some 0)
    ∧ joinRoom (runOps [RegOp.create ⟨"a", none, some 0⟩ 7]) 0 3
        = Except.error RoomError.roomFull
    ∧ ({ name := "b", owner := 1, members := {1},
         description := none, maxMembers := some 2 } : Room).members.card ≤ 2 :=
  ⟨createRoom_maxMembers_unvalidated.1 RegState.init ⟨"a", none, some 0⟩ 7 0
     (by decide) (by decide),
   createRoom_maxMembers_unvalidated.2.1 (runOps [RegOp.create ⟨"a", none, some 0⟩ 7]) 0
     { name := "a", owner := 7, members := {7}, description := none, maxMembers := some 0 } 3
     (by decide) (by decide) (by decide),
   createRoom_maxMembers_unvalidated.2.2 [RegOp.create ⟨"b", none, some 2⟩ 1]
     (0, { name := "b", owner := 1, members := {1},
           description := none, maxMembers := some 2 }) 2
     (by decide) (by decide) (by decide)⟩

/-! ## Room broker and message router (`room/broadcast.rs`) -/

/-- `RoomBroadcastManager`: the per-room channel map (modelled by the set
of room ids that have a channel) and the `user_current_room` index. -/
structure BrokerState where
  roomChannels : List Nat
  userCurrentRoom : List (Nat × Nat)
  deriving DecidableEq, Repr

/-- `RoomBroadcastManager::new`. -/
def BrokerState.init : BrokerState :=
  { roomChannels := [], userCurrentRoom := [] }

/-- `create_room_channel`: create the broadcast channel if missing. -/
def createRoomChannel (b : BrokerState) (rid : Nat) : BrokerState :=
  if rid ∈ b.roomChannels then b
  else { b with roomChannels := b.roomChannels ++ [rid] }

/-- `user_current_room.insert(uid, rid)`. -/
def setCurrent (l : List (Nat × Nat)) (uid rid : Nat) : List (Nat × Nat) :=
  match lookupA l uid with
  | some _ => l.map fun p => if p.1 = uid then (uid, rid) else p
  | none => l ++ [(uid, rid)]

/-- `user_enter_room`: create-or-get the channel, then record the user's
current room. -/
def userEnterRoom (b : BrokerState) (uid rid : Nat) : BrokerState :=
  let b' := createRoomChannel b rid
  { b' with userCurrentRoom := setCurrent b'.userCurrentRoom uid rid }

/-- `broadcast_to_room`: publish on the room's channel when it exists;
a missing channel is only a logged warning (no event leaves). -/
def broadcastToRoom (b : BrokerState) (rid : Nat) (ev : WsEvent) : List Effect :=
  if rid ∈ b.roomChannels then [Effect.publishRoom rid ev] else []

/-- The error of `RoomMessageRouter::route_message` when the sender has
no current room. -/
inductive RouteError
  | notInAnyRoom
  deriving DecidableEq, Repr

/-- `RoomMessageRouter::route_message` (`broadcast.rs` lines 176-190):
look up the sender's CURRENT room in the broker index and publish the
event there — the room id carried inside the message plays no part in
the choice of channel. -/
def routeMessage (b : BrokerState) (m : Message) (senderId : Nat) :
    Except RouteError (List Effect) :=
  match lookupA b.userCurrentRoom senderId with
  | some rid => Except.ok (broadcastToRoom b rid (WsEvent.message m))
  | none => Except.error RouteError.notInAnyRoom

/-- Result of a `handle_client_message` arm: an `Err(..)` return (logged
by the receive loop) or the effects of a handled frame. -/
inductive HandlerResult
  | rejected
  | handled (effects : List Effect)
  deriving DecidableEq, Repr

/-- The `ClientMessage::SendRoomMessage` arm of `handle_client_message`
(`main.rs` lines 434-463): reject unless the sender is a member of the
room named in the frame; build the text message with
`additional_data = {"room_id": rid}`; save it (logging a storage error);
route it via `route_message` (logging a routing error). -/
def handleSendRoomMessage (reg : RegState) (b : BrokerState) (uid rid : Nat)
    (content : String) (msgId ts : Nat) (saveResult : DbResult) : HandlerResult :=
  if isUserInRoom reg rid uid = false then HandlerResult.rejected
  else
    let m : Message :=
      { Message.newText uid content none msgId ts with additionalData := some rid }
    let saveEffs :=
      [Effect.save m]
        ++ (match saveResult with
            | DbResult.storageError => [Effect.logSaveError]
            | DbResult.ok => [])
    match routeMessage b m uid with
    | Except.ok effs => HandlerResult.handled (saveEffs ++ effs)
    | Except.error _ => HandlerResult.handled (saveEffs ++ [Effect.logRouteError])

/-- The rooms published to among a list of effects. -/
def publishTargets (effs : List Effect) : List Nat :=
  effs.filterMap fun e =>
    match e with
    | Effect.publishRoom r _ => some r
    | _ => none

/-- Registry where user 5 is a member of room 0 and of room 1. -/
def c3Reg : RegState :=
  runOps [RegOp.create ⟨"a", none, none⟩ 0, RegOp.create ⟨"b", none, none⟩ 1,
          RegOp.join 0 5, RegOp.join 1 5]

/-- Broker state after user 5 entered room 0, then room 1 (current = 1). -/
def c3Broker : BrokerState :=
  userEnterRoom (userEnterRoom BrokerState.init 5 0) 5 1

/-- The message the `SendRoomMessage{room 0, "hi"}` frame builds. -/
def c3Message : Message :=
  { Message.newText 5 "hi" none 99 10 with additionalData := some 0 }

/-- Claim C3 (corrected, counterexample): user 5 is a member of room 0
(the room named in the frame), yet the built message is published on the
channel of room 1 — the sender's current room in the broker index — and
not on room 0's channel. -/
theorem roomMessage_routed_to_current_not_named :
    isUserInRoom c3Reg 0 5 = true
    ∧ handleSendRoomMessage c3Reg c3Broker 5 0 "hi" 99 10 DbResult.ok
        = HandlerResult.handled
            [Effect.save c3Message, Effect.publishRoom 1 (WsEvent.message c3Message)]
    ∧ Effect.publishRoom 0 (WsEvent.message c3Message)
        ∉ [Effect.save c3Message, Effect.publishRoom 1 (WsEvent.message c3Message)] := by
  refine ⟨?_, ?_, ?_⟩ <;> decide

/-- Claim C3 (amended): a `SendRoomMessage{room, text}` frame from a
non-member of `room` is rejected with an error; from a member, a text
message carrying `additional_data.room_id = room` is built and persisted,
and it is published on the channel of the sender's CURRENT room in the
broker (the most recently entered room) when one exists — not necessarily
the channel of the room named in the frame; with no current room the
message is persisted but not published (the routing error is logged). -/
theorem handleSendRoomMessage_routes_to_current_room
    (reg : RegState) (b : BrokerState) (uid rid : Nat) (content : String)
    (msgId ts : Nat) (saveResult : DbResult) :
    (isUserInRoom reg rid uid = false →
      handleSendRoomMessage reg b uid rid content msgId ts saveResult
        = HandlerResult.rejected)
    ∧ (isUserInRoom reg rid uid = true →
        ∃ effs, handleSendRoomMessage reg b uid rid content msgId ts saveResult
            = HandlerResult.handled effs
          ∧ Effect.save
              ({ Message.newText uid content none msgId ts with additionalData := some rid })
              ∈ effs
          ∧ publishTargets effs
              = (match lookupA b.userCurrentRoom uid with
                 | some cur => if cur ∈ b.roomChannels then [cur] else []
                 | none => [])) := by
  constructor
  · intro hfalse
    unfold handleSendRoomMessage
    rw [if_pos hfalse]
  · intro htrue
    unfold handleSendRoomMessage
    rw [if_neg (by simp [htrue])]
    unfold routeMessage
    cases hcur : lookupA b.userCurrentRoom uid with
    | some cur =>
      refine ⟨_, rfl, ?_, ?_⟩
      · cases saveResult <;> simp
      · unfold broadcastToRoom
        by_cases hch : cur ∈ b.roomChannels
        · rw [if_pos hch]
          cases saveResult <;> simp [publishTargets, hch]
        · rw [if_neg hch]
          cases saveResult <;> simp [publishTargets, hch]
    | none =>
      refine ⟨_, rfl, ?_, ?_⟩
      · cases saveResult <;> simp
      · cases saveResult <;> simp [publishTargets]

/-- Witness for `handleSendRoomMessage_routes_to_current_room` at the
member case of the concrete scenario. -/
theorem handleSendRoomMessage_routes_to_current_room_witness :
    ∃ effs, handleSendRoomMessage c3Reg c3Broker 5 0 "hi" 99 10 DbResult.ok
        = HandlerResult.handled effs
      ∧ Effect.save c3Message ∈ effs
      ∧ publishTargets effs = [1] := by
  obtain ⟨effs, h1, h2, h3⟩ :=
    (handleSendRoomMessage_routes_to_current_room c3Reg c3Broker 5 0 "hi" 99 10
      DbResult.ok).2 (by decide)
  refine ⟨effs, h1, h2, ?_⟩
  rw [h3]
  decide

end RustChat
